import Mathlib

/-!
The inotify event listener: record walk, mask filter, registration and shutdown.

A shallow embedding of `include/inotify.h` (namespace `inotify`, class
`EventListener`).

* The bytes of the event buffer are a `List Nat` (one entry per `char`), the
  allocation made by `allocator_.allocate(kBufferSize)`; a read at an offset
  outside that list is a fault (`none`), since the C++ behaviour is undefined.
* `int` values are `Int` with the narrowing conversion made explicit;
  `size_t` arithmetic is `Nat` modulo `2 ^ 64`.
* Calls into the operating system and into `std::thread` become entries of a
  call trace; what the operating system returns is a parameter.
-/

set_option autoImplicit false

namespace inotify

/-! ## Constants of `<sys/inotify.h>` -/

/-- Value of `IN_ACCESS`. -/
def kAccess : Nat := 0x001
/-- Value of `IN_MODIFY`. -/
def kModify : Nat := 0x002
/-- Value of `IN_CLOSE`, that is `IN_CLOSE_WRITE | IN_CLOSE_NOWRITE`. -/
def kClose : Nat := 0x018
/-- Value of `IN_OPEN`. -/
def kOpen : Nat := 0x020
/-- Value of `IN_MOVE`, that is `IN_MOVED_FROM | IN_MOVED_TO`. -/
def kMove : Nat := 0x0C0
/-- Value of `IN_CREATE`. -/
def kCreate : Nat := 0x100
/-- Value of `IN_DELETE`. -/
def kDelete : Nat := 0x200
/-- Value of `IN_ALL_EVENTS`. -/
def kAll : Nat := 0xFFF

/-- Size of `struct inotify_event`, the record header: `int wd`,
`uint32_t mask`, `uint32_t cookie`, `uint32_t len`, then the flexible array
`char name[]`. -/
def kEventSize : Nat := 16
/-- Bytes of the buffer: `1024 * (kEventSize + 16)`. -/
def kBufferLength : Nat := 1024 * (kEventSize + 16)
/-- Number of `char`s of the buffer: `kBufferLength / sizeof(char)`. -/
def kBufferSize : Nat := kBufferLength / 1

/-- Byte offset of the field `mask` in `struct inotify_event`. -/
def offsetMask : Int := 4
/-- Byte offset of the field `len` in `struct inotify_event`. -/
def offsetLen : Int := 12

/-! ## Memory -/

/-- One `char` of the allocation at the signed offset `i` from
`events_buffer_ptr`; `none` outside the allocation. -/
def readByte (buf : List Nat) (i : Int) : Option Nat :=
  if 0 ≤ i then buf[i.toNat]? else none

/-- A `uint32_t` field read at offset `i` (little-endian, as on x86-64 and
AArch64 Linux). -/
def readU32 (buf : List Nat) (i : Int) : Option Nat :=
  match readByte buf i, readByte buf (i + 1), readByte buf (i + 2), readByte buf (i + 3) with
  | some b0, some b1, some b2, some b3 => some (b0 + 256 * b1 + 65536 * b2 + 16777216 * b3)
  | _, _, _, _ => none

/-- The constructor `std::string(const char*)` applied at offset `i`: the
bytes before the first NUL at or after `i`; `none` when the allocation holds
no NUL from there on. -/
def cstr (buf : List Nat) (i : Int) : Option (List Nat) :=
  if 0 ≤ i then
    let tail := buf.drop i.toNat
    let s := tail.takeWhile (fun b => b != 0)
    if s.length < tail.length then some s else none
  else none

/-- The four bytes of a 32-bit value, little-endian. -/
def le32 (n : Nat) : List Nat :=
  [n % 256, n / 256 % 256, n / 65536 % 256, n / 16777216 % 256]

/-- A kernel record: the header fields and the name field; the header field
`len` is the length of the name field. -/
structure inotify_event where
  wd : Int
  mask : Nat
  cookie : Nat
  name : List Nat
deriving DecidableEq

/-- The bytes of one record: the header, then exactly `len` name bytes. -/
def inotify_event.bytes (e : inotify_event) : List Nat :=
  le32 (e.wd % 4294967296).toNat ++ le32 e.mask ++ le32 e.cookie ++ le32 e.name.length ++ e.name

/-- The concatenation of the bytes of the records. -/
def encodeAll : List inotify_event → List Nat
  | [] => []
  | e :: es => e.bytes ++ encodeAll es

/-! ## The listening loop -/

namespace EventListener

/-- `IsMatchingNotification`: `notif & event_mask` converted to `bool`. -/
def IsMatchingNotification (notif event_mask : Nat) : Bool :=
  (notif &&& event_mask) != 0

/-- Conversion of a `size_t` value to `int`: reduction modulo `2 ^ 32` into
the signed range. -/
def toInt32 (n : Nat) : Int :=
  if n % 4294967296 < 2147483648 then (n % 4294967296 : Nat) else (n % 4294967296 : Nat) - 4294967296

/-- The statement `current_event_buffer_index += (used_buffer_size / sizeof(char))`:
the index is converted to `size_t`, the sum is taken in `size_t` and the
result is converted back to `int`. -/
def nextIndex (current_event_buffer_index : Int) (extra_alloc : Nat) : Int :=
  let used_buffer_size := (kEventSize + extra_alloc) % 18446744073709551616
  toInt32 (((current_event_buffer_index % 18446744073709551616).toNat + used_buffer_size / 1)
    % 18446744073709551616)

/-- What one iteration of the inner `while` did. -/
structure Visit where
  /-- Value of `current_event_buffer_index` at the start of the iteration. -/
  index : Int
  /-- Field `event->mask`. -/
  mask : Nat
  /-- Field `event->len`. -/
  len : Nat
  /-- Arguments of the callback invocation, if one was made. -/
  call : Option (Nat × List Nat)
  /-- Buffer ranges read, as (first offset, number of bytes), in program
  order. -/
  reads : List (Int × Nat)
deriving DecidableEq

/-- Body of the inner `while` at index `idx`; `none` when a read leaves the
allocation. -/
def visitRecord (buf : List Nat) (notif : Nat) (idx : Int) : Option Visit :=
  match readU32 buf (idx + offsetMask) with
  | none => none
  | some mask =>
    let named : Option (Option (Nat × List Nat) × List (Int × Nat)) :=
      if IsMatchingNotification notif mask then
        match cstr buf (idx + kEventSize) with
        | none => none
        | some s => some (some (notif, s), [(idx + kEventSize, s.length + 1)])
      else some (none, [])
    match named with
    | none => none
    | some (call, nameReads) =>
      match readU32 buf (idx + offsetLen) with
      | none => none
      | some extra_alloc =>
        some { index := idx, mask := mask, len := extra_alloc, call := call,
               reads := [(idx + offsetMask, 4)] ++ nameReads ++ [(idx + offsetLen, 4)] }

/-- How a run of the inner `while` ended. -/
inductive Status where
  /-- The loop condition became false. -/
  | done
  /-- A read left the allocation. -/
  | fault
  /-- The iteration budget ran out with the loop condition still true. -/
  | timeout
deriving DecidableEq

/-- Result of a run of the inner `while`. -/
structure Walk where
  status : Status
  visits : List Visit
  /-- Value of `current_event_buffer_index` when the run ended. -/
  consumed : Int
deriving DecidableEq

/-- The inner loop `while (current_event_buffer_index < len)` of `ThreadLoop_`,
run for at most `fuel` iterations from index `idx`. -/
def ThreadLoop_walk (buf : List Nat) (len : Int) (notif : Nat) : Nat → Int → Walk
  | fuel, idx =>
    if idx < len then
      match fuel with
      | 0 => { status := Status.timeout, visits := [], consumed := idx }
      | fuel + 1 =>
        match visitRecord buf notif idx with
        | none => { status := Status.fault, visits := [], consumed := idx }
        | some v =>
          let rest := ThreadLoop_walk buf len notif fuel (nextIndex idx v.len)
          { rest with visits := v :: rest.visits }
    else { status := Status.done, visits := [], consumed := idx }

/-- The callback invocations of a run, in order. -/
def Walk.calls (w : Walk) : List (Nat × List Nat) :=
  w.visits.filterMap (fun v => v.call)

/-! ## Sequences of records, for stating what the walk finds -/

/-- The start offsets of the records of a sequence that begins at `base`. -/
def recordOffsets : Int → List inotify_event → List Int
  | _, [] => []
  | base, e :: es => base :: recordOffsets (base + kEventSize + e.name.length) es

/-- For each record, the bytes between the start of its name field and the
first NUL that follows in the buffer, `rest` being the bytes of the allocation
behind the last record. -/
def seenNames : List inotify_event → List Nat → List (List Nat)
  | [], _ => []
  | e :: es, rest =>
    (e.name ++ (encodeAll es ++ rest)).takeWhile (fun b => b != 0) :: seenNames es rest

/-- Every string read that the walk makes over the records ends at a NUL
inside the allocation: for each record whose mask overlaps `notif` there is a
NUL at or after the start of its name field. -/
def namesReadable (notif : Nat) : List inotify_event → List Nat → Bool
  | [], _ => true
  | e :: es, rest =>
    (!IsMatchingNotification notif e.mask || decide (0 ∈ e.name ++ (encodeAll es ++ rest)))
      && namesReadable notif es rest

/-- The visits that correspond to a sequence of records starting at `base`. -/
def decodedVisits (notif : Nat) : Int → List inotify_event → List Nat → List Visit
  | _, [], _ => []
  | base, e :: es, rest =>
    let s := (e.name ++ (encodeAll es ++ rest)).takeWhile (fun b => b != 0)
    { index := base, mask := e.mask, len := e.name.length,
      call := if IsMatchingNotification notif e.mask then some (notif, s) else none,
      reads := [(base + offsetMask, 4)] ++
        (if IsMatchingNotification notif e.mask then [(base + kEventSize, s.length + 1)] else []) ++
        [(base + offsetLen, 4)] }
    :: decodedVisits notif (base + kEventSize + e.name.length) es rest

/-- The bytes of the file name `a.txt`. -/
def nameATxt : List Nat := [97, 46, 116, 120, 116]

/-- Two records as the kernel writes them: `a.txt` modified and accessed, with
the name field padded with NULs to 16 bytes, then `a.txt` accessed. -/
def sampleRecords : List inotify_event :=
  [{ wd := 1, mask := kModify ||| kAccess, cookie := 0, name := nameATxt ++ List.replicate 11 0 },
   { wd := 1, mask := kAccess, cookie := 0, name := nameATxt ++ List.replicate 11 0 }]

/-- Two records with an empty name field (events on the watched directory
itself), as the kernel writes them. -/
def namelessRecords : List inotify_event :=
  [{ wd := 1, mask := kOpen, cookie := 0, name := [] },
   { wd := 1, mask := kOpen, cookie := 0, name := [] }]

/-- A buffer whose only record declares a name of `2 ^ 32 - 16` bytes. -/
def hugeLengthBuffer : List Nat :=
  le32 1 ++ le32 0 ++ le32 0 ++ le32 4294967280

/-! ## The registry -/

/-- A `std::thread` object held through the pointer stored in the registry. -/
structure Thread where
  id : Nat
  joinable : Bool
deriving DecidableEq

/-- One element of `events_handle_`: file descriptor, watch descriptor,
requested notification, thread, callback. -/
structure Entry where
  file_desc : Int
  watch_desc : Int
  notif : Nat
  thread : Thread
  callback : Nat
deriving DecidableEq

/-- A call made to the operating system, to `std::thread` or to `std::clog`.
The arguments of the operating system calls are in the order of their C
prototypes: `inotify_add_watch(fd, pathname, mask)`, `inotify_rm_watch(fd, wd)`,
`close(fd)`. -/
inductive Call where
  | inotify_init
  | inotify_add_watch (fd : Int) (pathname : String) (mask : Nat)
  | thread_new (id : Nat) (callback : Nat) (notif : Nat) (file_desc : Int) (watch_desc : Int)
  | thread_detach (id : Nat)
  | thread_destroy (id : Nat)
  | inotify_rm_watch (fd : Int) (wd : Int)
  | close (fd : Int)
  | clog (message : String)
deriving DecidableEq

/-- Result of a member function: the `SystemError` thrown, if any, the calls
made and the registry afterwards. -/
structure Outcome where
  thrown : Option String
  calls : List Call
  events_handle_ : List Entry
deriving DecidableEq

/-- `Listen(path, notif, callback)`. `init_ret` is what `inotify_init`
returns, `add_ret` what `inotify_add_watch` returns and `tid` names the
thread object created by `new std::thread`. -/
def Listen (init_ret add_ret : Int) (tid : Nat) (path : String) (notif : Nat) (callback : Nat)
    (events_handle_ : List Entry) : Outcome :=
  let file_desc := init_ret
  if file_desc < 0 then
    { thrown := some "inotify_init error", calls := [Call.inotify_init],
      events_handle_ := events_handle_ }
  else
    let watch_desc := add_ret
    { thrown := none,
      calls := [Call.inotify_init, Call.inotify_add_watch file_desc path notif,
                Call.thread_new tid callback notif file_desc watch_desc],
      events_handle_ := events_handle_ ++
        [{ file_desc := file_desc, watch_desc := watch_desc, notif := notif,
           thread := { id := tid, joinable := true }, callback := callback }] }

/-- First loop of `StopAll`: per entry, detach the thread when joinable,
destroy it (the destructor then runs on a thread that is not joinable) and
call `inotify_rm_watch(watch_desc, file_desc)`. -/
def stopEntries : List Entry → List Call
  | [] => []
  | e :: es =>
    (if e.thread.joinable then [Call.thread_detach e.thread.id] else []) ++
    [Call.thread_destroy e.thread.id, Call.inotify_rm_watch e.watch_desc e.file_desc] ++
    stopEntries es

/-- The vector `file_descs` after the first loop of `StopAll`. -/
def collectedDescs (events_handle_ : List Entry) : List Int :=
  events_handle_.map (fun e => e.file_desc)

/-- The range that `std::unique` keeps: the first element of every run of
equal consecutive elements. -/
def uniqueRuns : List Int → List Int
  | [] => []
  | [a] => [a]
  | a :: b :: t => if a = b then uniqueRuns (b :: t) else a :: uniqueRuns (b :: t)

/-- The vector after `std::unique(file_descs.begin(), file_descs.end())` with
the returned iterator dropped: the kept range is moved to the front, the
elements behind it stay as they were, the size does not change. -/
def std_unique (v : List Int) : List Int :=
  uniqueRuns v ++ v.drop (uniqueRuns v).length

/-- Second loop of `StopAll`: `close(fd)` for each element, with a log line
when the call returns non-zero. `close_ret k` is what the `k`-th call of
`close` returns. -/
def closeAll (close_ret : Nat → Int) : Nat → List Int → List Call
  | _, [] => []
  | k, fd :: fds =>
    [Call.close fd] ++
    (if close_ret k ≠ 0 then [Call.clog "error occured while closing file descriptor"] else []) ++
    closeAll close_ret (k + 1) fds

/-- `StopAll()`. -/
def StopAll (close_ret : Nat → Int) (events_handle_ : List Entry) : Outcome :=
  let file_descs := std_unique (collectedDescs events_handle_)
  { thrown := none,
    calls := stopEntries events_handle_ ++ closeAll close_ret 0 file_descs,
    events_handle_ := [] }

/-- The descriptors passed to `close`, in call order. -/
def closedDescs (calls : List Call) : List Int :=
  calls.filterMap (fun c => match c with
    | Call.close fd => some fd
    | _ => none)

/-- The (fd, wd) argument pairs passed to `inotify_rm_watch`, in call order. -/
def removedWatches (calls : List Call) : List (Int × Int) :=
  calls.filterMap (fun c => match c with
    | Call.inotify_rm_watch fd wd => some (fd, wd)
    | _ => none)

end EventListener

end inotify

namespace inotify

/-! ## Memory: helper lemmas -/

theorem readByte_append_right (a b : List Nat) (k : Nat) :
    readByte (a ++ b) ((a.length : Int) + k) = b[k]? := by
  have h0 : (0 : Int) ≤ (a.length : Int) + k := by omega
  have h1 : ((a.length : Int) + k).toNat = a.length + k := by omega
  simp only [readByte, h0, if_true, h1]
  rw [List.getElem?_append_right (by omega)]
  simp

theorem readU32_le32 (a b : List Nat) (n : Nat) (i : Int) (hi : i = a.length)
    (hn : n < 4294967296) : readU32 (a ++ (le32 n ++ b)) i = some n := by
  subst hi
  have e0 := readByte_append_right a (le32 n ++ b) 0
  have e1 := readByte_append_right a (le32 n ++ b) 1
  have e2 := readByte_append_right a (le32 n ++ b) 2
  have e3 := readByte_append_right a (le32 n ++ b) 3
  simp only [Nat.cast_zero, add_zero, Nat.cast_one, Nat.cast_ofNat] at e0 e1 e2 e3
  simp only [readU32, e0, e1, e2, e3]
  simp [le32]
  omega

theorem takeWhile_length_lt_iff (l : List Nat) :
    (l.takeWhile (fun b => b != 0)).length < l.length ↔ 0 ∈ l := by
  induction l with
  | nil => simp
  | cons x t ih =>
    by_cases hx : x = 0
    · subst hx; simp [List.takeWhile]
    · have : (x != 0) = true := by simpa using hx
      simp only [List.takeWhile, this, List.length_cons, Nat.add_lt_add_iff_right, ih,
        List.mem_cons]
      constructor
      · intro h; exact Or.inr h
      · rintro (h | h)
        · exact absurd h.symm hx
        · exact h

theorem cstr_append (a b : List Nat) (i : Int) (hi : i = a.length) :
    cstr (a ++ b) i = if 0 ∈ b then some (b.takeWhile (fun x => x != 0)) else none := by
  subst hi
  have h0 : (0 : Int) ≤ (a.length : Int) := by omega
  simp only [cstr, h0, if_true, Int.toNat_ofNat, List.drop_left, takeWhile_length_lt_iff]

theorem le32_length (n : Nat) : (le32 n).length = 4 := rfl

theorem bytes_length (e : inotify_event) : e.bytes.length = kEventSize + e.name.length := by
  simp [inotify_event.bytes, le32_length, kEventSize]
  omega

end inotify

namespace inotify.EventListener

/-! ## The record walk: helper lemmas -/

theorem nextIndex_eq (idx : Int) (extra : Nat)
    (h0 : -2147483648 ≤ idx + kEventSize + extra) (h1 : idx + kEventSize + extra < 2147483648) :
    nextIndex idx extra = idx + kEventSize + extra := by
  simp only [nextIndex, toInt32, kEventSize, Nat.div_one] at *
  split <;> omega

/-- The iteration of the walk at the start of a record that lies in the buffer
between `pre` and `post`. -/
theorem visitRecord_bytes (pre post : List Nat) (e : inotify_event) (notif : Nat)
    (hm : e.mask < 4294967296) (hl : e.name.length < 4294967296) :
    visitRecord (pre ++ (e.bytes ++ post)) notif pre.length =
      if IsMatchingNotification notif e.mask then
        (if 0 ∈ e.name ++ post then
          some { index := pre.length, mask := e.mask, len := e.name.length,
                 call := some (notif, (e.name ++ post).takeWhile (fun b => b != 0)),
                 reads := [((pre.length : Int) + offsetMask, 4),
                           ((pre.length : Int) + kEventSize,
                             ((e.name ++ post).takeWhile (fun b => b != 0)).length + 1),
                           ((pre.length : Int) + offsetLen, 4)] }
        else none)
      else
        some { index := pre.length, mask := e.mask, len := e.name.length, call := none,
               reads := [((pre.length : Int) + offsetMask, 4), ((pre.length : Int) + offsetLen, 4)] } := by
  have hmask : readU32 (pre ++ (e.bytes ++ post)) ((pre.length : Int) + offsetMask) = some e.mask := by
    have := readU32_le32 (pre ++ le32 (e.wd % 4294967296).toNat)
      (le32 e.cookie ++ le32 e.name.length ++ e.name ++ post) e.mask
      ((pre.length : Int) + offsetMask) (by simp [le32_length, offsetMask]) hm
    simpa [inotify_event.bytes, List.append_assoc] using this
  have hlen : readU32 (pre ++ (e.bytes ++ post)) ((pre.length : Int) + offsetLen) = some e.name.length := by
    have := readU32_le32 (pre ++ le32 (e.wd % 4294967296).toNat ++ le32 e.mask ++ le32 e.cookie)
      (e.name ++ post) e.name.length
      ((pre.length : Int) + offsetLen) (by simp [le32_length, offsetLen]) hl
    simpa [inotify_event.bytes, List.append_assoc] using this
  have hname : cstr (pre ++ (e.bytes ++ post)) ((pre.length : Int) + kEventSize) =
      if 0 ∈ e.name ++ post then some ((e.name ++ post).takeWhile (fun x => x != 0)) else none := by
    have := cstr_append (pre ++ le32 (e.wd % 4294967296).toNat ++ le32 e.mask ++ le32 e.cookie
      ++ le32 e.name.length) (e.name ++ post) ((pre.length : Int) + kEventSize)
      (by simp [le32_length, kEventSize])
    simpa [inotify_event.bytes, List.append_assoc] using this
  unfold visitRecord
  rw [hmask]
  simp only [hname, hlen]
  by_cases hmatch : IsMatchingNotification notif e.mask = true
  · by_cases hz : 0 ∈ e.name ++ post
    · simp [hmatch, hz]
    · simp [hmatch, hz]
  · simp [hmatch]

theorem walk_stop (buf : List Nat) (len : Int) (notif fuel : Nat) (idx : Int) (h : ¬ idx < len) :
    ThreadLoop_walk buf len notif fuel idx =
      { status := Status.done, visits := [], consumed := idx } := by
  cases fuel <;> simp [ThreadLoop_walk, h]

theorem walk_step (buf : List Nat) (len : Int) (notif fuel : Nat) (idx : Int) (v : Visit)
    (h : idx < len) (hv : visitRecord buf notif idx = some v) :
    ThreadLoop_walk buf len notif (fuel + 1) idx =
      { ThreadLoop_walk buf len notif fuel (nextIndex idx v.len) with
        visits := v :: (ThreadLoop_walk buf len notif fuel (nextIndex idx v.len)).visits } := by
  rw [ThreadLoop_walk]
  simp [h, hv]

/-- Over a buffer that holds the records `recs` between `pre` and `rest`, the
walk started at the first record visits the records one by one and stops at
the end of the last one. -/
theorem walk_encoded (notif : Nat) (rest : List Nat) :
    ∀ (recs : List inotify_event) (pre : List Nat) (fuel : Nat),
      (∀ e ∈ recs, e.mask < 4294967296) →
      (pre.length : Int) + (encodeAll recs).length < 2147483648 →
      namesReadable notif recs rest = true →
      recs.length ≤ fuel →
      ThreadLoop_walk (pre ++ (encodeAll recs ++ rest))
          ((pre.length : Int) + (encodeAll recs).length) notif fuel pre.length =
        { status := Status.done, visits := decodedVisits notif pre.length recs rest,
          consumed := (pre.length : Int) + (encodeAll recs).length } := by
  intro recs
  induction recs with
  | nil =>
    intro pre fuel _ _ _ _
    rw [walk_stop _ _ _ _ _ (by simp [encodeAll])]
    simp [decodedVisits, encodeAll]
  | cons e es ih =>
    intro pre fuel hmask hlen hnul hfuel
    obtain ⟨f, rfl⟩ : ∃ f, fuel = f + 1 := ⟨fuel - 1, by simp at hfuel; omega⟩
    have hbytes := bytes_length e
    have hsplit : (encodeAll (e :: es)).length = kEventSize + e.name.length + (encodeAll es).length := by
      simp [encodeAll, hbytes]
    rw [hsplit] at hlen ⊢
    have hk : kEventSize = 16 := rfl
    have hm : e.mask < 4294967296 := hmask e (List.mem_cons_self _ _)
    have hl : e.name.length < 4294967296 := by omega
    simp only [namesReadable, Bool.and_eq_true, Bool.or_eq_true, Bool.not_eq_true',
      decide_eq_true_eq] at hnul
    have hvisit := visitRecord_bytes pre (encodeAll es ++ rest) e notif hm hl
    have hbuf : pre ++ (encodeAll (e :: es) ++ rest) = pre ++ (e.bytes ++ (encodeAll es ++ rest)) := by
      simp [encodeAll, List.append_assoc]
    have hbuf2 : pre ++ (e.bytes ++ (encodeAll es ++ rest)) = (pre ++ e.bytes) ++ (encodeAll es ++ rest) := by
      simp [List.append_assoc]
    have hnext : nextIndex pre.length e.name.length = ((pre ++ e.bytes).length : Int) := by
      rw [nextIndex_eq _ _ (by omega) (by omega)]
      simp [hbytes]; omega
    have hlen2 : ((pre.length : Int) + ((kEventSize + e.name.length + (encodeAll es).length : Nat) : Int))
        = ((pre ++ e.bytes).length : Int) + (encodeAll es).length := by
      simp [hbytes]; omega
    have hrec := ih (pre ++ e.bytes) f (fun x hx => hmask x (List.mem_cons_of_mem _ hx))
      (by rw [← hlen2]; exact hlen) hnul.2 (by simp at hfuel; omega)
    rw [hbuf]
    by_cases hmatch : IsMatchingNotification notif e.mask = true
    · have hz : 0 ∈ e.name ++ (encodeAll es ++ rest) := by
        rcases hnul.1 with h | h
        · rw [hmatch] at h; exact absurd h (by simp)
        · exact h
      rw [if_pos hmatch, if_pos hz] at hvisit
      rw [walk_step _ _ _ _ _ _ (by omega) hvisit]
      simp only []
      rw [hnext, hbuf2, hlen2, hrec]
      simp [decodedVisits, hmatch, hbytes, add_assoc]
    · rw [if_neg hmatch] at hvisit
      rw [walk_step _ _ _ _ _ _ (by omega) hvisit]
      simp only []
      rw [hnext, hbuf2, hlen2, hrec]
      simp [decodedVisits, hmatch, hbytes, add_assoc]

theorem isMatching_iff (notif event_mask : Nat) :
    IsMatchingNotification notif event_mask = true ↔ notif &&& event_mask ≠ 0 := by
  simp [IsMatchingNotification]

theorem decodedVisits_length (notif : Nat) (rest : List Nat) (recs : List inotify_event) :
    ∀ base : Int, (decodedVisits notif base recs rest).length = recs.length := by
  induction recs with
  | nil => intro _; rfl
  | cons e es ih => intro base; simp [decodedVisits, ih]

theorem decodedVisits_index (notif : Nat) (rest : List Nat) (recs : List inotify_event) :
    ∀ base : Int, (decodedVisits notif base recs rest).map (fun v => v.index) =
      recordOffsets base recs := by
  induction recs with
  | nil => intro _; rfl
  | cons e es ih => intro base; simp [decodedVisits, recordOffsets, ih]

theorem decodedVisits_fields (notif : Nat) (rest : List Nat) (recs : List inotify_event) :
    ∀ base : Int, (decodedVisits notif base recs rest).map (fun v => (v.mask, v.len)) =
      recs.map (fun e => (e.mask, e.name.length)) := by
  induction recs with
  | nil => intro _; rfl
  | cons e es ih => intro base; simp [decodedVisits, ih]

theorem decodedVisits_call (notif : Nat) (rest : List Nat) (recs : List inotify_event) :
    ∀ base : Int, (decodedVisits notif base recs rest).map (fun v => v.call) =
      List.zipWith (fun e s => if notif &&& e.mask ≠ 0 then some (notif, s) else none)
        recs (seenNames recs rest) := by
  induction recs with
  | nil => intro _; rfl
  | cons e es ih =>
    intro base
    by_cases h : notif &&& e.mask = 0 <;>
      simp [decodedVisits, seenNames, ih, IsMatchingNotification, h]

theorem decodedVisits_calls_all (notif : Nat) (rest : List Nat) (recs : List inotify_event)
    (hall : ∀ e ∈ recs, notif &&& e.mask ≠ 0) :
    ∀ base : Int, (decodedVisits notif base recs rest).filterMap (fun v => v.call) =
      (seenNames recs rest).map (fun s => (notif, s)) := by
  induction recs with
  | nil => intro _; rfl
  | cons e es ih =>
    intro base
    have h : notif &&& e.mask ≠ 0 := hall e (List.mem_cons_self _ _)
    have ih2 := ih (fun x hx => hall x (List.mem_cons_of_mem _ hx))
    simp [decodedVisits, seenNames, ih2, IsMatchingNotification, h]

theorem seenNames_length (rest : List Nat) (recs : List inotify_event) :
    (seenNames recs rest).length = recs.length := by
  induction recs with
  | nil => rfl
  | cons e es ih => simp [seenNames, ih]

/-! ## The record walk: the claims -/

/-- C2: `IsMatchingNotification R M` is true exactly when `R &&& M ≠ 0`, and
over a buffer of whole records the walk invokes the callback for a record
exactly when the requested mask `R` and the mask of the record overlap, with
`R` itself as the kind argument: the calls made at the visits are, record by
record, `some (R, name read)` when the masks overlap and `none` otherwise. -/
theorem callback_iff_masks_overlap (recs : List inotify_event) (rest : List Nat) (R fuel : Nat)
    (hmask : ∀ e ∈ recs, e.mask < 4294967296)
    (hlen : (encodeAll recs).length < 2147483648)
    (hnul : namesReadable R recs rest = true)
    (hfuel : recs.length ≤ fuel) :
    (∀ M : Nat, IsMatchingNotification R M = true ↔ R &&& M ≠ 0) ∧
    (ThreadLoop_walk (encodeAll recs ++ rest) (encodeAll recs).length R fuel 0).status = Status.done ∧
    (ThreadLoop_walk (encodeAll recs ++ rest) (encodeAll recs).length R fuel 0).visits.map
        (fun v => v.call) =
      List.zipWith (fun e s => if R &&& e.mask ≠ 0 then some (R, s) else none)
        recs (seenNames recs rest) := by
  have h := walk_encoded R rest recs [] fuel hmask (by simpa using (by omega : ((encodeAll recs).length : Int) < 2147483648)) hnul hfuel
  simp only [List.nil_append, List.length_nil, Nat.cast_zero, zero_add] at h
  rw [h]
  refine ⟨fun M => isMatching_iff R M, rfl, ?_⟩
  exact decodedVisits_call R rest recs 0

/-- C3: over a buffer that is the concatenation of `N` whole records (followed
by the rest of the allocation), the walk ends normally after visiting exactly
`N` records, the `i`-th visit at the start offset of the `i`-th record and
with its mask and declared length, and the consumed byte count equals `len`;
when the requested mask overlaps every record mask the callback is invoked
exactly `N` times, once per record in record order. -/
theorem walk_visits_every_record (recs : List inotify_event) (rest : List Nat) (R fuel : Nat)
    (hmask : ∀ e ∈ recs, e.mask < 4294967296)
    (hlen : (encodeAll recs).length < 2147483648)
    (hnul : namesReadable R recs rest = true)
    (hfuel : recs.length ≤ fuel) :
    ∃ visits : List Visit,
      ThreadLoop_walk (encodeAll recs ++ rest) (encodeAll recs).length R fuel 0 =
        { status := Status.done, visits := visits, consumed := (encodeAll recs).length } ∧
      visits.length = recs.length ∧
      visits.map (fun v => v.index) = recordOffsets 0 recs ∧
      visits.map (fun v => (v.mask, v.len)) = recs.map (fun e => (e.mask, e.name.length)) ∧
      ((∀ e ∈ recs, R &&& e.mask ≠ 0) →
        visits.filterMap (fun v => v.call) = (seenNames recs rest).map (fun s => (R, s)) ∧
        (visits.filterMap (fun v => v.call)).length = recs.length) := by
  have h := walk_encoded R rest recs [] fuel hmask (by simpa using (by omega : ((encodeAll recs).length : Int) < 2147483648)) hnul hfuel
  simp only [List.nil_append, List.length_nil, Nat.cast_zero, zero_add] at h
  refine ⟨decodedVisits R 0 recs rest, h, decodedVisits_length R rest recs 0,
    decodedVisits_index R rest recs 0, decodedVisits_fields R rest recs 0, ?_⟩
  intro hall
  have hc := decodedVisits_calls_all R rest recs hall 0
  refine ⟨hc, ?_⟩
  rw [hc, List.length_map, seenNames_length]

/-- Witness of C2 on the two sample records with `R = kModify`: the first
record (modify and access) fires, the second (access only) does not. -/
theorem callback_iff_masks_overlap_witness :
    (∀ e ∈ sampleRecords, e.mask < 4294967296) ∧
    (encodeAll sampleRecords).length < 2147483648 ∧
    namesReadable kModify sampleRecords [] = true ∧
    sampleRecords.length ≤ 2 ∧
    ((∀ M : Nat, IsMatchingNotification kModify M = true ↔ kModify &&& M ≠ 0) ∧
    (ThreadLoop_walk (encodeAll sampleRecords ++ []) (encodeAll sampleRecords).length kModify 2 0).status
      = Status.done ∧
    (ThreadLoop_walk (encodeAll sampleRecords ++ []) (encodeAll sampleRecords).length kModify 2 0).visits.map
        (fun v => v.call) =
      List.zipWith (fun e s => if kModify &&& e.mask ≠ 0 then some (kModify, s) else none)
        sampleRecords (seenNames sampleRecords [])) :=
  ⟨by decide, by decide, by decide, by decide,
    callback_iff_masks_overlap sampleRecords [] kModify 2 (by decide) (by decide) (by decide)
      (by decide)⟩

/-- Witness of C3 on the two sample records with `R = kAccess`, which both
records overlap. -/
theorem walk_visits_every_record_witness :
    (∀ e ∈ sampleRecords, e.mask < 4294967296) ∧
    (encodeAll sampleRecords).length < 2147483648 ∧
    namesReadable kAccess sampleRecords [7, 0] = true ∧
    sampleRecords.length ≤ 2 ∧
    ∃ visits : List Visit,
      ThreadLoop_walk (encodeAll sampleRecords ++ [7, 0]) (encodeAll sampleRecords).length kAccess 2 0 =
        { status := Status.done, visits := visits, consumed := (encodeAll sampleRecords).length } ∧
      visits.length = sampleRecords.length ∧
      visits.map (fun v => v.index) = recordOffsets 0 sampleRecords ∧
      visits.map (fun v => (v.mask, v.len)) = sampleRecords.map (fun e => (e.mask, e.name.length)) ∧
      ((∀ e ∈ sampleRecords, kAccess &&& e.mask ≠ 0) →
        visits.filterMap (fun v => v.call) = (seenNames sampleRecords [7, 0]).map (fun s => (kAccess, s)) ∧
        (visits.filterMap (fun v => v.call)).length = sampleRecords.length) :=
  ⟨by decide, by decide, by decide, by decide,
    walk_visits_every_record sampleRecords [7, 0] kAccess 2 (by decide) (by decide) (by decide)
      (by decide)⟩

theorem takeWhile_append_of_mem (a b : List Nat) (h : 0 ∈ a) :
    (a ++ b).takeWhile (fun x => x != 0) = a.takeWhile (fun x => x != 0) := by
  induction a with
  | nil => simp at h
  | cons x t ih =>
    by_cases hx : x = 0
    · subst hx; simp [List.takeWhile]
    · have hp : (x != 0) = true := by simpa using hx
      have ht : 0 ∈ t := by
        rcases List.mem_cons.mp h with h | h
        · exact absurd h.symm hx
        · exact h
      simp [List.takeWhile_cons, hp, ih ht]

/-- C4 (amended): for a record whose mask overlaps the requested mask and
whose name field holds a NUL, the name passed to the callback is the bytes of
the name field before its first NUL: a start segment of the name field,
shorter than the declared length, holding no NUL, whatever follows the record
in the buffer. -/
theorem callback_name_ends_at_first_NUL (pre post : List Nat) (e : inotify_event) (R : Nat)
    (hm : e.mask < 4294967296) (hl : e.name.length < 4294967296)
    (hov : R &&& e.mask ≠ 0) (hz : 0 ∈ e.name) :
    ∃ v : Visit, visitRecord (pre ++ (e.bytes ++ post)) R pre.length = some v ∧
      v.call = some (R, e.name.takeWhile (fun b => b != 0)) ∧
      e.name.takeWhile (fun b => b != 0) <+: e.name ∧
      (e.name.takeWhile (fun b => b != 0)).length < e.name.length ∧
      0 ∉ e.name.takeWhile (fun b => b != 0) := by
  have hv := visitRecord_bytes pre post e R hm hl
  rw [if_pos ((isMatching_iff R e.mask).2 hov), if_pos (List.mem_append_left _ hz),
    takeWhile_append_of_mem _ _ hz] at hv
  refine ⟨_, hv, rfl, List.takeWhile_prefix _, (takeWhile_length_lt_iff e.name).2 hz, ?_⟩
  intro h0
  have := List.mem_takeWhile_imp h0
  simp at this

/-- Witness of C4 (amended): the first sample record, followed by the second. -/
theorem callback_name_ends_at_first_NUL_witness :
    (kModify ||| kAccess) < 4294967296 ∧
    (nameATxt ++ List.replicate 11 0).length < 4294967296 ∧
    kModify &&& (kModify ||| kAccess) ≠ 0 ∧
    0 ∈ nameATxt ++ List.replicate 11 0 ∧
    ∃ v : Visit,
      visitRecord ([] ++ (inotify_event.bytes
          { wd := 1, mask := kModify ||| kAccess, cookie := 0, name := nameATxt ++ List.replicate 11 0 }
          ++ [1, 0, 0, 0])) kModify ([] : List Nat).length = some v ∧
      v.call = some (kModify, (nameATxt ++ List.replicate 11 0).takeWhile (fun b => b != 0)) ∧
      (nameATxt ++ List.replicate 11 0).takeWhile (fun b => b != 0) <+: nameATxt ++ List.replicate 11 0 ∧
      ((nameATxt ++ List.replicate 11 0).takeWhile (fun b => b != 0)).length
        < (nameATxt ++ List.replicate 11 0).length ∧
      0 ∉ (nameATxt ++ List.replicate 11 0).takeWhile (fun b => b != 0) :=
  ⟨by decide, by decide, by decide, by decide,
    callback_name_ends_at_first_NUL [] [1, 0, 0, 0]
      { wd := 1, mask := kModify ||| kAccess, cookie := 0, name := nameATxt ++ List.replicate 11 0 }
      kModify (by decide) (by decide) (by decide) (by decide)⟩

/-- C4 (counterexample): the first sample record declares a name field of 16
bytes, `a.txt` and 11 NULs of padding, and the callback gets the 5 bytes of
`a.txt`, cut at the first NUL; and for a record that declares 0 name bytes the
callback gets `[1]`, the first byte of the header of the record that follows. -/
theorem callback_name_not_declared_length :
    (sampleRecords.map (fun e => e.name.length) = [16, 16] ∧
     (ThreadLoop_walk (encodeAll sampleRecords) 64 kAccess 2 0).calls =
       [(kAccess, nameATxt), (kAccess, nameATxt)] ∧
     nameATxt.length = 5) ∧
    (namelessRecords.map (fun e => e.name.length) = [0, 0] ∧
     (ThreadLoop_walk (encodeAll namelessRecords ++ [0]) 32 kOpen 2 0).calls =
       [(kOpen, [1]), (kOpen, [])]) := by
  decide

theorem visitRecord_index (buf : List Nat) (R : Nat) (idx : Int) (v : Visit)
    (h : visitRecord buf R idx = some v) : v.index = idx := by
  unfold visitRecord at h
  cases hm : readU32 buf (idx + offsetMask) with
  | none => simp [hm] at h
  | some m =>
    cases hl : readU32 buf (idx + offsetLen) with
    | none =>
      cases hb : IsMatchingNotification R m <;> cases hc : cstr buf (idx + kEventSize) <;>
        simp [hm, hl, hb, hc] at h
    | some x =>
      cases hb : IsMatchingNotification R m <;> cases hc : cstr buf (idx + kEventSize) <;>
        simp [hm, hl, hb, hc] at h <;> rw [← h]

/-- C5 (counterexample): `read` returned 8 bytes, less than one header, into a
buffer whose bytes 8 to 31 are not part of the read. The walk reads the header
field `len` at offsets 12 to 15 and the name at offsets 16 to 21, invokes the
callback, and stops with 32 bytes consumed. -/
theorem truncated_tail_is_decoded :
    ThreadLoop_walk (encodeAll (sampleRecords.take 1)) 8 kModify 1 0 =
      { status := Status.done,
        visits := [{ index := 0, mask := 3, len := 16, call := some (kModify, nameATxt),
                     reads := [(4, 4), (16, 6), (12, 4)] }],
        consumed := 32 } ∧
    (8 : Int) ≤ 12 ∧ (8 : Int) < 32 := by
  decide

/-- C5 (amended): at an index `idx < len` where the read stops before the
record does (`len < idx + kEventSize + declared length`), the walk visits the
record all the same: it reads the header fields `mask` and `len` at
`idx + 4` and `idx + 12`, invokes the callback exactly when the mask read
overlaps the requested mask, and stops with `idx + kEventSize + declared
length` bytes consumed, which is more than `len`. -/
theorem truncated_record_is_visited (buf : List Nat) (len idx : Int) (R fuel mask extra : Nat)
    (h0 : 0 ≤ idx) (hidx : idx < len) (htrunc : len < idx + kEventSize + extra)
    (hwrap : idx + kEventSize + extra < 2147483648)
    (hm : readU32 buf (idx + offsetMask) = some mask)
    (hl : readU32 buf (idx + offsetLen) = some extra)
    (hs : R &&& mask ≠ 0 → (cstr buf (idx + kEventSize)).isSome = true)
    (hfuel : 1 ≤ fuel) :
    ∃ v : Visit,
      ThreadLoop_walk buf len R fuel idx =
        { status := Status.done, visits := [v], consumed := idx + kEventSize + extra } ∧
      v.index = idx ∧ v.mask = mask ∧ v.len = extra ∧
      (idx + offsetMask, 4) ∈ v.reads ∧ (idx + offsetLen, 4) ∈ v.reads ∧
      (v.call.isSome = true ↔ R &&& mask ≠ 0) ∧
      (∀ kind name, v.call = some (kind, name) → kind = R) := by
  obtain ⟨f, rfl⟩ : ∃ f, fuel = f + 1 := ⟨fuel - 1, by omega⟩
  have hk : kEventSize = 16 := rfl
  have hnext : nextIndex idx extra = idx + kEventSize + extra :=
    nextIndex_eq idx extra (by omega) hwrap
  by_cases hmatch : R &&& mask = 0
  · have hnm : IsMatchingNotification R mask = false := by simp [IsMatchingNotification, hmatch]
    have hv : visitRecord buf R idx = some
        { index := idx, mask := mask, len := extra, call := none,
          reads := [(idx + offsetMask, 4)] ++ [] ++ [(idx + offsetLen, 4)] } := by
      simp [visitRecord, hm, hl, hnm]
    refine ⟨{ index := idx, mask := mask, len := extra, call := none,
              reads := [(idx + offsetMask, 4)] ++ [] ++ [(idx + offsetLen, 4)] },
      ?_, rfl, rfl, rfl, by simp, by simp, by simp [hmatch], by simp⟩
    rw [walk_step _ _ _ _ _ _ hidx hv]
    simp only []
    rw [hnext, walk_stop _ _ _ _ _ (by omega)]
  · have hnm : IsMatchingNotification R mask = true := (isMatching_iff R mask).2 hmatch
    obtain ⟨s, hs2⟩ := Option.isSome_iff_exists.1 (hs hmatch)
    have hv : visitRecord buf R idx = some
        { index := idx, mask := mask, len := extra, call := some (R, s),
          reads := [(idx + offsetMask, 4)] ++ [(idx + kEventSize, s.length + 1)] ++
            [(idx + offsetLen, 4)] } := by
      simp [visitRecord, hm, hl, hnm, hs2]
    refine ⟨{ index := idx, mask := mask, len := extra, call := some (R, s),
              reads := [(idx + offsetMask, 4)] ++ [(idx + kEventSize, s.length + 1)] ++
                [(idx + offsetLen, 4)] },
      ?_, rfl, rfl, rfl, by simp, by simp, by simp [hmatch], ?_⟩
    · rw [walk_step _ _ _ _ _ _ hidx hv]
      simp only []
      rw [hnext, walk_stop _ _ _ _ _ (by omega)]
    · intro kind name h
      simp only [Option.some.injEq, Prod.mk.injEq] at h
      exact h.1.symm

/-- Witness of C5 (amended): a read of 8 bytes into a buffer that holds the
first sample record. -/
theorem truncated_record_is_visited_witness :
    (0 : Int) ≤ 0 ∧ (0 : Int) < 8 ∧ (8 : Int) < 0 + kEventSize + (16 : Nat) ∧
    (0 : Int) + kEventSize + (16 : Nat) < 2147483648 ∧
    readU32 (encodeAll (sampleRecords.take 1)) (0 + offsetMask) = some 3 ∧
    readU32 (encodeAll (sampleRecords.take 1)) (0 + offsetLen) = some 16 ∧
    (kModify &&& 3 ≠ 0 → (cstr (encodeAll (sampleRecords.take 1)) (0 + kEventSize)).isSome = true) ∧
    1 ≤ 1 ∧
    ∃ v : Visit,
      ThreadLoop_walk (encodeAll (sampleRecords.take 1)) 8 kModify 1 0 =
        { status := Status.done, visits := [v], consumed := 0 + kEventSize + (16 : Nat) } ∧
      v.index = 0 ∧ v.mask = 3 ∧ v.len = 16 ∧
      (0 + offsetMask, 4) ∈ v.reads ∧ (0 + offsetLen, 4) ∈ v.reads ∧
      (v.call.isSome = true ↔ kModify &&& 3 ≠ 0) ∧
      (∀ kind name, v.call = some (kind, name) → kind = kModify) :=
  ⟨by decide, by decide, by decide, by decide, by decide, by decide, by decide, by decide,
    truncated_record_is_visited (encodeAll (sampleRecords.take 1)) 8 0 kModify 1 3 16
      (by decide) (by decide) (by decide) (by decide) (by decide) (by decide) (by decide)
      (by decide)⟩

/-- While the index stays below `2 ^ 31`, every iteration moves it forward by
at least `kEventSize`, so `fuel` iterations are enough when
`len ≤ idx + 16 * fuel`. -/
theorem walk_bounded (buf : List Nat) (len : Int) (R : Nat) :
    ∀ (fuel : Nat) (idx : Int), 0 ≤ idx →
      (∀ v ∈ (ThreadLoop_walk buf len R fuel idx).visits,
        v.index + kEventSize + v.len < 2147483648) →
      len ≤ idx + 16 * fuel →
      (ThreadLoop_walk buf len R fuel idx).status ≠ Status.timeout ∧
      (idx + 16 * ((ThreadLoop_walk buf len R fuel idx).visits.length : Int) ≤ len + 15 ∨
        (ThreadLoop_walk buf len R fuel idx).visits = []) ∧
      ∀ v ∈ (ThreadLoop_walk buf len R fuel idx).visits,
        nextIndex v.index v.len = v.index + kEventSize + v.len := by
  intro fuel
  induction fuel with
  | zero =>
    intro idx _ _ hlen
    rw [walk_stop _ _ _ _ _ (by omega)]
    simp
  | succ f ih =>
    intro idx h0 hwrap hlen
    by_cases hidx : idx < len
    · cases hv : visitRecord buf R idx with
      | none =>
        have : ThreadLoop_walk buf len R (f + 1) idx =
            { status := Status.fault, visits := [], consumed := idx } := by
          rw [ThreadLoop_walk]; simp [hidx, hv]
        rw [this]; simp
      | some v =>
        have hstep := walk_step buf len R f idx v hidx hv
        rw [hstep] at hwrap ⊢
        simp only [List.mem_cons, forall_eq_or_imp] at hwrap ⊢
        have hvi := visitRecord_index buf R idx v hv
        have hk : kEventSize = 16 := rfl
        have hb := hwrap.1
        rw [hvi] at hb
        have hnext : nextIndex idx v.len = idx + kEventSize + v.len :=
          nextIndex_eq idx v.len (by omega) hb
        rw [hnext] at hwrap ⊢
        have hrec := ih (idx + kEventSize + v.len) (by omega) hwrap.2
          (by push_cast at hlen ⊢; omega)
        refine ⟨hrec.1, Or.inl ?_, ?_, hrec.2.2⟩
        · rcases hrec.2.1 with h | h
          · simp only [List.length_cons]
            push_cast
            omega
          · rw [h]; simp; omega
        · rw [hvi]; exact hnext
    · rw [walk_stop _ _ _ _ _ hidx]
      simp

/-- C10 (counterexample): a record whose header declares a name of
`2 ^ 32 - 16` bytes leaves the index at 0 after the iteration, and the walk over
a read of 16 bytes holding that record has not ended after any number of
iterations. -/
theorem huge_length_walk_never_ends :
    nextIndex 0 4294967280 = 0 ∧
    visitRecord hugeLengthBuffer kAll 0 =
      some { index := 0, mask := 0, len := 4294967280, call := none, reads := [(4, 4), (12, 4)] } ∧
    ¬ ∃ fuel : Nat, (ThreadLoop_walk hugeLengthBuffer 16 kAll fuel 0).status ≠ Status.timeout := by
  have hn : nextIndex 0 4294967280 = 0 := by decide
  have hv : visitRecord hugeLengthBuffer kAll 0 =
      some { index := 0, mask := 0, len := 4294967280, call := none, reads := [(4, 4), (12, 4)] } := by
    decide
  refine ⟨hn, hv, ?_⟩
  rintro ⟨fuel, hfuel⟩
  apply hfuel
  clear hfuel
  induction fuel with
  | zero => decide
  | succ f ih =>
    rw [walk_step _ _ _ _ _ _ (by decide) hv]
    simp only []
    rw [hn]
    exact ih

/-- C10 (amended): when `len ≤ 0` the walk makes no iteration and no callback
invocation; and when no visited record takes `index + kEventSize + declared
length` to `2 ^ 31` or beyond, every iteration moves the index forward by
exactly `kEventSize` plus the declared length, and the walk has ended after at
most `len / kEventSize` rounded up iterations. -/
theorem walk_terminates_without_wrap (buf : List Nat) (len : Int) (R fuel : Nat) :
    (len ≤ 0 → ThreadLoop_walk buf len R fuel 0 =
      { status := Status.done, visits := [], consumed := 0 }) ∧
    (len ≤ 16 * fuel →
     (∀ v ∈ (ThreadLoop_walk buf len R fuel 0).visits,
        v.index + kEventSize + v.len < 2147483648) →
     (ThreadLoop_walk buf len R fuel 0).status ≠ Status.timeout ∧
     (ThreadLoop_walk buf len R fuel 0).visits.length ≤ (len.toNat + (kEventSize - 1)) / kEventSize ∧
     ∀ v ∈ (ThreadLoop_walk buf len R fuel 0).visits,
        nextIndex v.index v.len = v.index + kEventSize + v.len ∧
        v.index < nextIndex v.index v.len) := by
  refine ⟨fun h => walk_stop _ _ _ _ _ (by omega), fun hfuel hwrap => ?_⟩
  have h := walk_bounded buf len R fuel 0 (le_refl _) hwrap (by omega)
  have hk : kEventSize = 16 := rfl
  refine ⟨h.1, ?_, fun v hv => ⟨h.2.2 v hv, ?_⟩⟩
  · rcases h.2.1 with h1 | h1
    · rw [hk]; omega
    · rw [h1]; simp
  · rw [h.2.2 v hv, hk]; push_cast; omega

/-- Witness of C10 (amended): a read of the 64 bytes of the two sample
records. -/
theorem walk_terminates_without_wrap_witness :
    ((64 : Int) ≤ 0 → ThreadLoop_walk (encodeAll sampleRecords) 64 kModify 4 0 =
      { status := Status.done, visits := [], consumed := 0 }) ∧
    (64 : Int) ≤ 16 * (4 : Nat) ∧
    (∀ v ∈ (ThreadLoop_walk (encodeAll sampleRecords) 64 kModify 4 0).visits,
        v.index + kEventSize + v.len < 2147483648) ∧
    ((ThreadLoop_walk (encodeAll sampleRecords) 64 kModify 4 0).status ≠ Status.timeout ∧
     (ThreadLoop_walk (encodeAll sampleRecords) 64 kModify 4 0).visits.length
       ≤ ((64 : Int).toNat + (kEventSize - 1)) / kEventSize ∧
     ∀ v ∈ (ThreadLoop_walk (encodeAll sampleRecords) 64 kModify 4 0).visits,
        nextIndex v.index v.len = v.index + kEventSize + v.len ∧
        v.index < nextIndex v.index v.len) :=
  ⟨(walk_terminates_without_wrap (encodeAll sampleRecords) 64 kModify 4).1, by decide, by decide,
    (walk_terminates_without_wrap (encodeAll sampleRecords) 64 kModify 4).2 (by decide) (by decide)⟩

/-! ## Shutdown: helper lemmas -/

theorem closedDescs_append (a b : List Call) :
    closedDescs (a ++ b) = closedDescs a ++ closedDescs b := by
  simp [closedDescs, List.filterMap_append]

theorem removedWatches_append (a b : List Call) :
    removedWatches (a ++ b) = removedWatches a ++ removedWatches b := by
  simp [removedWatches, List.filterMap_append]

theorem closedDescs_stopEntries (reg : List Entry) : closedDescs (stopEntries reg) = [] := by
  induction reg with
  | nil => rfl
  | cons e es ih =>
    unfold stopEntries
    rw [closedDescs_append, ih]
    cases e.thread.joinable <;> simp [closedDescs]

theorem removedWatches_stopEntries (reg : List Entry) :
    removedWatches (stopEntries reg) = reg.map (fun e => (e.watch_desc, e.file_desc)) := by
  induction reg with
  | nil => rfl
  | cons e es ih =>
    unfold stopEntries
    rw [removedWatches_append, ih]
    cases e.thread.joinable <;> simp [removedWatches]

theorem closedDescs_closeAll (close_ret : Nat → Int) (fds : List Int) (k : Nat) :
    closedDescs (closeAll close_ret k fds) = fds := by
  induction fds generalizing k with
  | nil => rfl
  | cons fd fds ih =>
    unfold closeAll
    rw [closedDescs_append, ih]
    by_cases h : close_ret k = 0 <;> simp [closedDescs, h]

theorem removedWatches_closeAll (close_ret : Nat → Int) (fds : List Int) (k : Nat) :
    removedWatches (closeAll close_ret k fds) = [] := by
  induction fds generalizing k with
  | nil => rfl
  | cons fd fds ih =>
    unfold closeAll
    rw [removedWatches_append, ih]
    by_cases h : close_ret k = 0 <;> simp [removedWatches, h]

theorem uniqueRuns_length_le (v : List Int) : (uniqueRuns v).length ≤ v.length := by
  induction v with
  | nil => simp [uniqueRuns]
  | cons a t ih =>
    cases t with
    | nil => simp [uniqueRuns]
    | cons b t =>
      unfold uniqueRuns
      split
      · simp only [List.length_cons] at ih ⊢; omega
      · simp only [List.length_cons] at ih ⊢; omega

theorem mem_uniqueRuns (v : List Int) (x : Int) (hx : x ∈ v) : x ∈ uniqueRuns v := by
  induction v with
  | nil => simp at hx
  | cons a t ih =>
    cases t with
    | nil => simpa [uniqueRuns] using hx
    | cons b t =>
      unfold uniqueRuns
      rcases List.mem_cons.mp hx with h | h
      · split
        · rename_i hab
          exact ih (by rw [h, hab]; exact List.mem_cons_self _ _)
        · rw [h]; exact List.mem_cons_self _ _
      · split
        · exact ih h
        · exact List.mem_cons_of_mem _ (ih h)

theorem std_unique_length (v : List Int) : (std_unique v).length = v.length := by
  have := uniqueRuns_length_le v
  simp only [std_unique, List.length_append, List.length_drop]
  omega

theorem closedDescs_StopAll (close_ret : Nat → Int) (reg : List Entry) :
    closedDescs (StopAll close_ret reg).calls = std_unique (collectedDescs reg) := by
  simp [StopAll, closedDescs_append, closedDescs_stopEntries, closedDescs_closeAll]

/-- The number of `close` calls of `StopAll` is the number of entries, not the
number of distinct descriptors. -/
theorem StopAll_close_count (close_ret : Nat → Int) (reg : List Entry) :
    (closedDescs (StopAll close_ret reg).calls).length = reg.length := by
  rw [closedDescs_StopAll, std_unique_length]
  simp [collectedDescs]

/-- When `inotify_init` returns a negative descriptor, `Listen` throws
`SystemError`, creates no thread and leaves the registry as it was. -/
theorem Listen_open_failure (init_ret add_ret : Int) (tid : Nat) (path : String)
    (notif callback : Nat) (reg : List Entry) (h : init_ret < 0) :
    Listen init_ret add_ret tid path notif callback reg =
      { thrown := some "inotify_init error", calls := [Call.inotify_init], events_handle_ := reg } := by
  simp [Listen, h]

/-! ## Shutdown: the claims -/

/-- C1: for three entries sharing the two descriptors 3 and 4, `StopAll` makes
three `close` calls, `close(3)`, `close(4)`, `close(4)`: descriptor 4 is closed
twice, because the iterator returned by `std::unique` is dropped and the vector
keeps its size. -/
theorem StopAll_closes_shared_descriptor_twice (close_ret : Nat → Int) :
    closedDescs (StopAll close_ret
      [{ file_desc := 3, watch_desc := 1, notif := kModify, thread := { id := 0, joinable := true }, callback := 0 },
       { file_desc := 3, watch_desc := 2, notif := kModify, thread := { id := 1, joinable := true }, callback := 0 },
       { file_desc := 4, watch_desc := 1, notif := kModify, thread := { id := 2, joinable := true }, callback := 0 }]).calls
      = [3, 4, 4] := by
  rw [closedDescs_StopAll]
  decide

/-- C6: when `inotify_init` returns 3 and `inotify_add_watch` returns -1,
`Listen` throws nothing, creates the thread and appends an entry with watch
descriptor -1. -/
theorem Listen_ignores_watch_failure :
    Listen 3 (-1) 0 "/tmp" kModify 0 [] =
      { thrown := none,
        calls := [Call.inotify_init, Call.inotify_add_watch 3 "/tmp" kModify,
                  Call.thread_new 0 0 kModify 3 (-1)],
        events_handle_ := [{ file_desc := 3, watch_desc := -1, notif := kModify,
                             thread := { id := 0, joinable := true }, callback := 0 }] } := by
  simp [Listen]

/-- C7: for the one entry with file descriptor 3 and watch descriptor 1,
`StopAll` calls `inotify_rm_watch` with fd = 1 and wd = 3: the two arguments
are passed in the wrong order. -/
theorem StopAll_swaps_rm_watch_arguments (close_ret : Nat → Int) :
    removedWatches (StopAll close_ret
      [{ file_desc := 3, watch_desc := 1, notif := kModify, thread := { id := 0, joinable := true }, callback := 0 }]).calls
      = [(1, 3)] := by
  simp [StopAll, removedWatches_append, removedWatches_stopEntries, removedWatches_closeAll]

/-- C8: whatever the `close` calls return, `StopAll` throws nothing, empties
the registry, makes its calls in two phases (first one `inotify_rm_watch` per
entry and no `close`, then only `close` calls and their log lines), passes the
same descriptors to `close` as when no call fails, and every descriptor of the
registry is among them. -/
theorem StopAll_best_effort (close_ret : Nat → Int) (reg : List Entry) :
    (StopAll close_ret reg).thrown = none ∧
    (StopAll close_ret reg).events_handle_ = [] ∧
    (∃ first second, (StopAll close_ret reg).calls = first ++ second ∧
      (removedWatches first).length = reg.length ∧ closedDescs first = [] ∧
      removedWatches second = [] ∧
      closedDescs second = closedDescs (StopAll close_ret reg).calls) ∧
    closedDescs (StopAll close_ret reg).calls = closedDescs (StopAll (fun _ => 0) reg).calls ∧
    (closedDescs (StopAll close_ret reg).calls).length = reg.length ∧
    ∀ e ∈ reg, e.file_desc ∈ closedDescs (StopAll close_ret reg).calls := by
  refine ⟨rfl, rfl, ?_, ?_, StopAll_close_count close_ret reg, ?_⟩
  · refine ⟨stopEntries reg, closeAll close_ret 0 (std_unique (collectedDescs reg)), rfl, ?_,
      closedDescs_stopEntries reg, removedWatches_closeAll _ _ _, ?_⟩
    · simp [removedWatches_stopEntries]
    · rw [closedDescs_StopAll, closedDescs_closeAll]
  · rw [closedDescs_StopAll, closedDescs_StopAll]
  · intro e he
    rw [closedDescs_StopAll]
    unfold std_unique
    exact List.mem_append_left _ (mem_uniqueRuns _ _ (List.mem_map_of_mem _ he))

/-- C9: on the empty registry `StopAll` makes no call at all, throws nothing
and leaves the registry empty; and a `StopAll` that follows a `StopAll` makes
no call. -/
theorem StopAll_idempotent :
    (∀ close_ret : Nat → Int, StopAll close_ret [] =
      { thrown := none, calls := [], events_handle_ := [] }) ∧
    (∀ (c1 c2 : Nat → Int) (reg : List Entry),
      (StopAll c2 (StopAll c1 reg).events_handle_).calls = [] ∧
      (StopAll c2 (StopAll c1 reg).events_handle_).events_handle_ = [] ∧
      (StopAll c2 (StopAll c1 reg).events_handle_).thrown = none) := by
  refine ⟨fun _ => rfl, fun _ _ _ => ⟨rfl, rfl, rfl⟩⟩

end inotify.EventListener
